import Mathlib

/-!
Verification development for the RAG agent in `src/agent/main.py`.

The Python source is shallowly embedded: strings are modelled as `String`
(lists of characters), Python `dict` JSON payloads as an inductive `Json`
with association-list objects, fallible operations as `Option`/`Except`,
and the streaming state machine in `generate_stream` as an explicit fold
over stream units.  Collaborator behaviour (the `json` stdlib module, the
HTTP backend) is modelled from its documented behaviour; everything else
is translated directly from the source.
-/

namespace CopperAI

/-- Characters treated as whitespace by Python `str.strip` (ASCII subset;
Python also strips some Unicode spaces, which no claim exercises). -/
def isPySpace (c : Char) : Bool :=
  c == ' ' || c == '\t' || c == '\n' || c == '\r' || c == '\x0b' || c == '\x0c'

/-- Python `str.strip` on a character list. -/
def pyStripList (cs : List Char) : List Char :=
  ((cs.dropWhile isPySpace).reverse.dropWhile isPySpace).reverse

/-- Python `str.strip`. -/
def pyStrip (s : String) : String :=
  ⟨pyStripList s.data⟩

/-- Python `str.lower` (ASCII lowering; claims only use ASCII names). -/
def pyLower (s : String) : String :=
  ⟨s.data.map Char.toLower⟩

/-- `startswith` on character lists. -/
def listStartsWith : List Char → List Char → Bool
  | [], _ => true
  | _ :: _, [] => false
  | p :: ps, c :: cs => p == c && listStartsWith ps cs

/-- Python substring membership `pat in s` on character lists. -/
def listContains (pat : List Char) : List Char → Bool
  | [] => pat.isEmpty
  | c :: rest => listStartsWith pat (c :: rest) || listContains pat rest

/-- Index of the first literal space, as in Python `str.find(" ")`. -/
def findSpaceIdx : List Char → Option Nat
  | [] => none
  | c :: rest =>
    if c == ' ' then some 0
    else (findSpaceIdx rest).map (· + 1)

/-- Line-break characters recognised by Python `str.splitlines`. -/
def isLineBreak (c : Char) : Bool :=
  c == '\n' || c == '\r' || c == '\x0b' || c == '\x0c' ||
  c == '\x1c' || c == '\x1d' || c == '\x1e' || c == '\x85' ||
  c == '\u2028' || c == '\u2029'

/-- Python `str.splitlines(keepends=True)`: each segment keeps its line
terminator, `\r\n` counts as a single break. -/
def splitLinesAux (acc : List Char) : List Char → List (List Char)
  | [] => if acc.isEmpty then [] else [acc.reverse]
  | '\r' :: '\n' :: rest => (acc.reverse ++ ['\r', '\n']) :: splitLinesAux [] rest
  | c :: rest =>
    if isLineBreak c then (acc.reverse ++ [c]) :: splitLinesAux [] rest
    else splitLinesAux (c :: acc) rest

/-- `splitlines(keepends=True)` entry point. -/
def splitLinesKeepEnds (cs : List Char) : List (List Char) :=
  splitLinesAux [] cs

/-- JSON values as produced by Python `json.loads`: numbers are kept as
`mant * 10 ^ exp10` (ints have `exp10 = 0`), objects as insertion-ordered
association lists with unique keys (CPython dict semantics). -/
inductive Json where
  | null : Json
  | bool (b : Bool) : Json
  | num (mant : Int) (exp10 : Int) : Json
  | str (s : String) : Json
  | arr (elems : List Json) : Json
  | obj (members : List (String × Json)) : Json

/-- A parsed JSON object body (a Python dict). -/
abbrev JObj := List (String × Json)

/-- Dict lookup, `d.get(k)`. -/
def getKey (ms : JObj) (k : String) : Option Json :=
  match ms with
  | [] => none
  | (k1, v1) :: rest => if k1 == k then some v1 else getKey rest k

/-- Dict membership, `k in d`. -/
def hasKey (ms : JObj) (k : String) : Bool :=
  (getKey ms k).isSome

/-- Dict update `d[k] = v`: replaces in place, else appends (CPython order). -/
def setKey : JObj → String → Json → JObj
  | [], k, v => [(k, v)]
  | (k1, v1) :: rest, k, v =>
    if k1 == k then (k, v) :: rest else (k1, v1) :: setKey rest k v

/-- Dict removal `d.pop(k, None)`. -/
def popKey : JObj → String → JObj
  | [], _ => []
  | (k1, v1) :: rest, k =>
    if k1 == k then rest else (k1, v1) :: popKey rest k

/-- Python truthiness of a JSON value. -/
def jsonTruthy : Json → Bool
  | .null => false
  | .bool b => b
  | .num m _ => m != 0
  | .str s => s != ""
  | .arr xs => !xs.isEmpty
  | .obj ms => !ms.isEmpty

/-- JSON whitespace. -/
def isJsonWs (c : Char) : Bool :=
  c == ' ' || c == '\t' || c == '\n' || c == '\r'

/-- Skip JSON whitespace. -/
def skipWs (cs : List Char) : List Char :=
  cs.dropWhile isJsonWs

/-- Value of a hex digit. -/
def hexVal (c : Char) : Option Nat :=
  if '0' ≤ c && c ≤ '9' then some (c.toNat - 48)
  else if 'a' ≤ c && c ≤ 'f' then some (c.toNat - 87)
  else if 'A' ≤ c && c ≤ 'F' then some (c.toNat - 55)
  else none

/-- Body of a JSON string literal (after the opening quote), with the
standard escapes; `\u` takes four hex digits. -/
def parseStringAux (acc : List Char) : List Char → Option (String × List Char)
  | [] => none
  | '"' :: rest => some (⟨acc.reverse⟩, rest)
  | '\\' :: esc =>
    match esc with
    | '"' :: r => parseStringAux ('"' :: acc) r
    | '\\' :: r => parseStringAux ('\\' :: acc) r
    | '/' :: r => parseStringAux ('/' :: acc) r
    | 'b' :: r => parseStringAux ('\x08' :: acc) r
    | 'f' :: r => parseStringAux ('\x0c' :: acc) r
    | 'n' :: r => parseStringAux ('\n' :: acc) r
    | 'r' :: r => parseStringAux ('\r' :: acc) r
    | 't' :: r => parseStringAux ('\t' :: acc) r
    | 'u' :: h1 :: h2 :: h3 :: h4 :: r =>
      match hexVal h1, hexVal h2, hexVal h3, hexVal h4 with
      | some a, some b, some c, some d =>
        parseStringAux (Char.ofNat (((a * 16 + b) * 16 + c) * 16 + d) :: acc) r
      | _, _, _, _ => none
    | _ => none
  | c :: rest => parseStringAux (c :: acc) rest

/-- A JSON string literal including the opening quote. -/
def parseStringLit : List Char → Option (String × List Char)
  | '"' :: rest => parseStringAux [] rest
  | _ => none

/-- Digit characters to the Nat they denote. -/
def digitsToNat (ds : List Char) : Nat :=
  ds.foldl (fun n c => n * 10 + (c.toNat - 48)) 0

/-- One or more decimal digits. -/
def parseDigits (cs : List Char) : Option (Nat × Nat × List Char) :=
  let ds := cs.takeWhile Char.isDigit
  if ds.isEmpty then none else some (digitsToNat ds, ds.length, cs.dropWhile Char.isDigit)

/-- Optional exponent suffix of a JSON number (after `e`/`E`). -/
def parseNumberExpTail (mant : Int) (fdigits : Nat) (cs : List Char) :
    Option (Json × List Char) :=
  let (esign, cs5) : Int × List Char :=
    match cs with
    | '+' :: r => (1, r)
    | '-' :: r => (-1, r)
    | _ => (1, cs)
  match parseDigits cs5 with
  | none => none
  | some (e, _, cs6) => some (.num mant (esign * (e : Int) - (fdigits : Int)), cs6)

/-- Finish a JSON number after mantissa digits: optional exponent. -/
def parseNumberExp (mant : Int) (fdigits : Nat) (cs : List Char) :
    Option (Json × List Char) :=
  match cs with
  | 'e' :: cs4 => parseNumberExpTail mant fdigits cs4
  | 'E' :: cs4 => parseNumberExpTail mant fdigits cs4
  | _ => some (.num mant (-(fdigits : Int)), cs)

/-- A JSON number: sign, integer part, optional fraction, optional exponent.
Returned as mantissa and a power of ten. -/
def parseNumber (cs : List Char) : Option (Json × List Char) :=
  let (sign, cs1) : Int × List Char :=
    match cs with
    | '-' :: rest => (-1, rest)
    | _ => (1, cs)
  match parseDigits cs1 with
  | none => none
  | some (ip, _, cs2) =>
    match cs2 with
    | '.' :: cs2a =>
      match parseDigits cs2a with
      | some (f, k, cs3) =>
        parseNumberExp (sign * ((ip : Int) * (10 : Int) ^ k + (f : Int))) k cs3
      | none => none
    | _ => parseNumberExp (sign * (ip : Int)) 0 cs2

/-- Fold parsed members into a dict: duplicate keys keep the first position
with the last value, as in CPython. -/
def buildObj (ms : List (String × Json)) : JObj :=
  ms.foldl (fun acc kv => setKey acc kv.1 kv.2) []

mutual

/-- One JSON value (fuel-indexed recursive descent; fuel exceeding the input
length never runs out). -/
def parseValueF : Nat → List Char → Option (Json × List Char)
  | 0, _ => none
  | fuel + 1, cs0 =>
    let cs := skipWs cs0
    match cs with
    | [] => none
    | c :: rest =>
      if c = '\x7b' then
        match skipWs rest with
        | '\x7d' :: r2 => some (.obj [], r2)
        | body => (parseMembersF fuel body).map (fun p => (.obj (buildObj p.1), p.2))
      else if c = '[' then
        match skipWs rest with
        | ']' :: r2 => some (.arr [], r2)
        | body => (parseElemsF fuel body).map (fun p => (.arr p.1, p.2))
      else if c = '"' then
        (parseStringLit cs).map (fun p => (.str p.1, p.2))
      else if listStartsWith ("true".data) cs then some (.bool true, cs.drop 4)
      else if listStartsWith ("false".data) cs then some (.bool false, cs.drop 5)
      else if listStartsWith ("null".data) cs then some (.null, cs.drop 4)
      else parseNumber cs

/-- Object members after `{` (non-empty), consuming the closing `}`. -/
def parseMembersF : Nat → List Char → Option (List (String × Json) × List Char)
  | 0, _ => none
  | fuel + 1, cs =>
    match parseStringLit (skipWs cs) with
    | none => none
    | some (k, r1) =>
      match skipWs r1 with
      | ':' :: r2 =>
        match parseValueF fuel r2 with
        | none => none
        | some (v, r3) =>
          match skipWs r3 with
          | ',' :: r4 => (parseMembersF fuel r4).map (fun p => ((k, v) :: p.1, p.2))
          | '\x7d' :: r4 => some ([(k, v)], r4)
          | _ => none
      | _ => none

/-- Array elements after `[` (non-empty), consuming the closing `]`. -/
def parseElemsF : Nat → List Char → Option (List Json × List Char)
  | 0, _ => none
  | fuel + 1, cs =>
    match parseValueF fuel cs with
    | none => none
    | some (v, r1) =>
      match skipWs r1 with
      | ',' :: r2 => (parseElemsF fuel r2).map (fun p => (v :: p.1, p.2))
      | ']' :: r2 => some ([v], r2)
      | _ => none

end

/-- `json.loads`: parse a complete JSON document (trailing whitespace only). -/
def jsonParse (s : String) : Option Json :=
  match parseValueF (s.data.length + 2) s.data with
  | some (v, rest) => if skipWs rest = [] then some v else none
  | none => none

/-- Escape one character as in `json.dumps` (`ensure_ascii=True`; BMP only). -/
def dumpChar (c : Char) : String :=
  if c = '"' then "\\\""
  else if c = '\\' then "\\\\"
  else if c = '\n' then "\\n"
  else if c = '\r' then "\\r"
  else if c = '\t' then "\\t"
  else if c = '\x08' then "\\b"
  else if c = '\x0c' then "\\f"
  else if c.toNat < 32 || c.toNat > 126 then
    let n := c.toNat % 65536
    let hx := fun (d : Nat) => (Nat.digitChar (d % 16))
    ⟨['\\', 'u', hx (n / 4096), hx (n / 256), hx (n / 16), hx n]⟩
  else ⟨[c]⟩

/-- Escape a whole string literal for `json.dumps`. -/
def dumpString (s : String) : String :=
  "\"" ++ String.join (s.data.map dumpChar) ++ "\""

/-- `json.dumps` with the default separators, fuel-indexed for totality. -/
def jsonDumpF : Nat → Json → String
  | 0, _ => ""
  | _, .null => "null"
  | _, .bool true => "true"
  | _, .bool false => "false"
  | _, .num m e => if e = 0 then toString m else toString m ++ "e" ++ toString e
  | _, .str s => dumpString s
  | fuel + 1, .arr xs =>
    "[" ++ String.intercalate (", ") (xs.map (jsonDumpF fuel)) ++ "]"
  | fuel + 1, .obj ms =>
    "\x7b" ++
      String.intercalate (", ")
        (ms.map (fun kv => dumpString kv.1 ++ ": " ++ jsonDumpF fuel kv.2)) ++
    "\x7d"

mutual

/-- Nesting depth of a JSON value, an upper bound on the dump fuel needed. -/
def jsonDepth : Json → Nat
  | .arr xs => 1 + jsonDepthList xs
  | .obj ms => 1 + jsonDepthMembers ms
  | _ => 1

/-- Maximum depth over a list of values. -/
def jsonDepthList : List Json → Nat
  | [] => 0
  | v :: rest => max (jsonDepth v) (jsonDepthList rest)

/-- Maximum depth over object members. -/
def jsonDepthMembers : List (String × Json) → Nat
  | [] => 0
  | kv :: rest => max (jsonDepth kv.2) (jsonDepthMembers rest)

end

/-- `json.dumps`. -/
def jsonDump (v : Json) : String :=
  jsonDumpF (jsonDepth v) v

/-- The module constant `SUPPORTED_TOOL_NAMES` (main.py line 58). -/
def SUPPORTED_TOOL_NAMES : List String :=
  ["schematic.place_component", "schematic.move_component", "mock.selection_inspector"]

/-- The module constant `THINK_TAG_START`. -/
def THINK_TAG_START : String := "<think>"

/-- The module constant `THINK_TAG_END`. -/
def THINK_TAG_END : String := "</think>"

/-- Is this value a Python string? -/
def isStrVal : Option Json → Bool
  | some (.str _) => true
  | _ => false

/-- Does `isinstance(v, (int, float))` hold?  In Python `bool` is a subclass
of `int`, so JSON booleans also pass this check. -/
def isNumVal : Option Json → Bool
  | some (.num _ _) => true
  | some (.bool _) => true
  | _ => false

/-- `validate_tool_call` (main.py lines 617-680): parse and validate one
`TOOL <name> <json>` line.  Result is `(valid, tool_name, payload)`; every
Python exception inside the body is caught, so the function is total. -/
def validate_tool_call (line0 : String) : Bool × Option String × Option Json :=
  let line := pyStrip line0
  if ¬ listStartsWith ("TOOL ".data) line.data then (false, none, none)
  else
    let rest := pyStrip ⟨line.data.drop 5⟩
    if rest = "" then (false, none, none)
    else
      match findSpaceIdx rest.data with
      | none => (false, none, none)
      | some space_idx =>
        let tool_name := pyStrip ⟨rest.data.take space_idx⟩
        let json_str := pyStrip ⟨rest.data.drop space_idx⟩
        if tool_name = "" ∨ json_str = "" then (false, some tool_name, none)
        else
          let normalized_tool := pyLower tool_name
          if ¬ SUPPORTED_TOOL_NAMES.contains normalized_tool then
            (false, some tool_name, none)
          else
            match jsonParse json_str with
            | none => (false, some tool_name, none)
            | some (Json.obj members) =>
              if normalized_tool = "schematic.place_component" then
                let missing := (["symbol", "x", "y"]).filter (fun f => ¬ hasKey members f)
                if missing ≠ [] then (false, some tool_name, some (Json.obj members))
                else if ¬ isStrVal (getKey members "symbol") then
                  (false, some tool_name, some (Json.obj members))
                else if ¬ isNumVal (getKey members "x") then
                  (false, some tool_name, some (Json.obj members))
                else if ¬ isNumVal (getKey members "y") then
                  (false, some tool_name, some (Json.obj members))
                else (true, some tool_name, some (Json.obj members))
              else (true, some tool_name, some (Json.obj members))
            | some _ => (false, some tool_name, none)

/-- `sanitize_tool_lines` (main.py lines 683-713): drop lines that look like
tool calls but do not validate; all other lines pass through with their
line terminators. -/
def sanitize_tool_lines (text : String) : String :=
  if ¬ listContains ("TOOL ".data) text.data then text
  else
    let cleaned := (splitLinesKeepEnds text.data).filter (fun segment =>
      let stripped := pyStrip ⟨segment⟩
      if listStartsWith ("TOOL ".data) stripped.data then
        (validate_tool_call stripped).1
      else true)
    ⟨cleaned.flatten⟩

/-- The slicing loop shared by `TextChunker._chunk_simple` and
`TextChunker._chunk_with_tiktoken` (main.py lines 142-174): slice
`[start, start + size)`, stop once the slice reaches the end, else advance
`start` by `size - overlap`.  Fuel models the `while` loop; `none` means the
fuel ran out (the Python loop would still be running). -/
def chunkLoopAux {α : Type} : Nat → Nat → Nat → List α → Option (List (List α))
  | 0, _, _, _ => none
  | fuel + 1, size, overlap, t =>
    if t.length = 0 then some []
    else
      let chunk := t.take size
      if t.length ≤ size then some [chunk]
      else (chunkLoopAux fuel size overlap (t.drop (size - overlap))).map (chunk :: ·)

/-- `TextChunker._chunk_simple`: character-based chunking. -/
def chunk_simple (size overlap : Nat) (t : List Char) : List (List Char) :=
  (chunkLoopAux (t.length + 1) size overlap t).getD []

/-- An external tokenizer (the `tiktoken` collaborator). -/
structure Encoding where
  encode : String → List Nat
  decode : List Nat → String

/-- `TextChunker._chunk_with_tiktoken`: the same loop over token ids. -/
def chunk_with_tiktoken (e : Encoding) (size overlap : Nat) (text : String) :
    List String :=
  ((chunkLoopAux ((e.encode text).length + 1) size overlap (e.encode text)).getD []).map
    e.decode

/-- `TextChunker.chunk_text`: tokenizer variant when available, else the
character variant. -/
def chunk_text (enc : Option Encoding) (size overlap : Nat) (text : String) :
    List String :=
  match enc with
  | some e => chunk_with_tiktoken e size overlap text
  | none => (chunk_simple size overlap text.data).map (fun cs => ⟨cs⟩)

/-- The JSON body of an embedding response, with the three shapes
`get_embedding` probes: `embeddings` (list of vectors), `embedding`
(one vector), `data` (list of records each with an optional vector). -/
structure EmbedData (V : Type) where
  embeddings : Option (List (List V))
  embedding : Option (List V)
  dataField : Option (List (Option (List V)))

/-- One network attempt's outcome, as classified by the `except` arms of
`get_embedding`: a JSON body, an HTTP error status (`raise_for_status`),
a timeout, or any other exception. -/
inductive EmbedResp (V : Type) where
  | ok (payload : EmbedData V)
  | httpError (status : Nat)
  | timeout
  | otherError

/-- The result-extraction `if`/`elif` chain of `get_embedding`
(main.py lines 200-216). -/
def extractEmbedding {V : Type} (d : EmbedData V) : Option (List V) :=
  match d.embeddings with
  | some (e :: _) => if e.isEmpty then none else some e
  | _ =>
    match d.embedding with
    | some e => if e.isEmpty then none else some e
    | none =>
      match d.dataField with
      | some (first :: _) =>
        match first with
        | some e => if e.isEmpty then none else some e
        | none => none
      | _ => none

/-- `max_retries` in `get_embedding` (main.py line 187). -/
def maxRetries : Nat := 2

/-- Observable outcome of `get_embedding`: the returned value, the number of
network calls made, and the number of `time.sleep` delays taken. -/
structure EmbedOutcome (V : Type) where
  result : Option (List V)
  calls : Nat
  sleeps : Nat

/-- The retry loop of `EmbeddingService.get_embedding` (main.py lines
185-248), iterating over the remaining attempt indices of `range(2)`.
HTTP 404 returns immediately; HTTP 500 sleeps and retries while
`attempt < max_retries - 1`; timeout retries without sleeping; any other
error returns immediately; falling off the loop returns `None`. -/
def get_embedding_go {V : Type} (backend : String → Nat → EmbedResp V)
    (text : String) : List Nat → Nat → Nat → EmbedOutcome V
  | [], calls, sleeps => ⟨none, calls, sleeps⟩
  | attempt :: restAttempts, calls, sleeps =>
    match backend text attempt with
    | .ok d =>
      match extractEmbedding d with
      | some e => ⟨some e, calls + 1, sleeps⟩
      | none => ⟨none, calls + 1, sleeps⟩
    | .httpError status =>
      if status = 404 then ⟨none, calls + 1, sleeps⟩
      else if status = 500 then
        if attempt < maxRetries - 1 then
          get_embedding_go backend text restAttempts (calls + 1) (sleeps + 1)
        else ⟨none, calls + 1, sleeps⟩
      else ⟨none, calls + 1, sleeps⟩
    | .timeout =>
      if attempt < maxRetries - 1 then
        get_embedding_go backend text restAttempts (calls + 1) sleeps
      else ⟨none, calls + 1, sleeps⟩
    | .otherError => ⟨none, calls + 1, sleeps⟩

/-- `EmbeddingService.get_embedding` against an abstract backend. -/
def get_embedding {V : Type} (backend : String → Nat → EmbedResp V)
    (text : String) : EmbedOutcome V :=
  get_embedding_go backend text (List.range maxRetries) 0 0

/-- A stored conversation message as used by `augment_prompt`. -/
structure Msg where
  role : String
  content : String

/-- The last `n` elements of a list (Python `l[-n:]`). -/
def lastN {α : Type} (n : Nat) (l : List α) : List α :=
  l.drop (l.length - n)

/-- The memory-context block of `augment_prompt` (main.py lines 516-525):
empty unless memory is requested, the session id is truthy, and history
retrieval succeeds with at least one message.  `Except` models the
`try`/`except` around `get_conversation`. -/
def memoryContextOf (getConversation : String → Nat → Except Unit (List Msg))
    (sessionId : Option String) (includeMemory : Bool) : String :=
  match sessionId with
  | none => ""
  | some sid =>
    if includeMemory ∧ sid ≠ "" then
      match getConversation sid 10 with
      | .error _ => ""
      | .ok messages =>
        if ¬ messages.isEmpty then
          (lastN 5 messages).foldl
            (fun acc msg => acc ++ msg.role ++ ": " ++ msg.content ++ "\n")
            "\n\nRecent conversation history:\n"
        else ""
    else ""

/-- `RAGRetriever.augment_prompt` (main.py lines 510-538), with the two
collaborator calls (`retrieve_context`, `get_conversation`) abstracted as
function parameters. -/
def augment_prompt (retrieveContext : String → Option String → String)
    (getConversation : String → Nat → Except Unit (List Msg))
    (prompt : String) (sessionId : Option String) (includeMemory : Bool) : String :=
  let context := retrieveContext prompt sessionId
  let memory_context := memoryContextOf getConversation sessionId includeMemory
  let augmented_parts :=
    (if context ≠ "" then [context] else []) ++
    (if memory_context ≠ "" then [memory_context] else [])
  if augmented_parts ≠ [] then
    String.intercalate "\n" (augmented_parts ++ ["\n\nUser query: " ++ prompt])
  else prompt

/-- A plan returned by `AgentOrchestrator.plan_action`. -/
structure Plan where
  action : String
  needs_context : Bool
  tools : List String

/-- `AgentOrchestrator.plan_action` (main.py lines 550-569): keyword
classifier; `needs_context` starts `True` and no branch clears it. -/
def plan_action (user_query : String) : Plan :=
  let query_lower := pyLower user_query
  if listContains ("place".data) query_lower.data &&
      listContains ("component".data) query_lower.data then
    Plan.mk "tool_use" true ["schematic.place_component"]
  else if listContains ("search".data) query_lower.data ||
      listContains ("find".data) query_lower.data ||
      listContains ("what".data) query_lower.data then
    Plan.mk "search" true []
  else
    Plan.mk "respond" true []

/-- `AgentOrchestrator.execute_plan` (main.py lines 571-583): augment the
query when the plan searches or needs context, else forward it untouched.
The call to `augment_prompt` is abstracted as `augment`; the MemoryStore
write is an external side effect. -/
def execute_plan (plan : Plan) (user_query : String)
    (augment : String → String) : String :=
  if plan.action == "search" || plan.needs_context then augment user_query
  else user_query

/-- Boundary markers the sanitizer inserts into the client stream:
`true` records an emitted `<think>` open tag, `false` an emitted
`</think>` close tag. -/
abbrev Markers := List Bool

/-- The `thinking` block of `generate_stream` (main.py lines 836-845):
sanitize the thinking text, prefix the open tag when the block is not yet
open, drop the field when the sanitized text is empty.  Non-string
`thinking` values take dynamic Python paths (scalars raise `TypeError`
inside `sanitize_tool_lines`; no claim exercises them) and are modelled as
the raising case. -/
def thinkingPhase (thinking_open : Bool) (chunk : JObj) :
    Except Unit (JObj × Bool × Markers) :=
  if hasKey chunk "thinking" then
    match getKey chunk "thinking" with
    | some (Json.str thinking_text) =>
      let sanitized_thinking := sanitize_tool_lines thinking_text
      if sanitized_thinking ≠ "" then
        if ¬ thinking_open then
          .ok (setKey chunk "thinking" (.str (THINK_TAG_START ++ sanitized_thinking)),
               true, [true])
        else
          .ok (setKey chunk "thinking" (.str sanitized_thinking), thinking_open, [])
      else
        .ok (popKey chunk "thinking", thinking_open, [])
    | _ => .error ()
  else .ok (chunk, thinking_open, [])

/-- The `response` block of `generate_stream` (main.py lines 848-859):
sanitize the response text, prefix the close tag on the client copy when
the thinking block is open, and accumulate the pre-tag sanitized text into
the running full response. -/
def responsePhase (thinking_open : Bool) (full_response_text : String)
    (chunk : JObj) : Except Unit (JObj × Bool × String × Markers) :=
  if hasKey chunk "response" then
    match getKey chunk "response" with
    | some (Json.str response_text) =>
      let sanitized_response := sanitize_tool_lines response_text
      let (client_response, open1, ms) :=
        if sanitized_response ≠ "" ∧ thinking_open then
          (THINK_TAG_END ++ sanitized_response, false, [false])
        else (sanitized_response, thinking_open, ([] : Markers))
      let full1 :=
        if sanitized_response ≠ "" then full_response_text ++ sanitized_response
        else full_response_text
      .ok (setKey chunk "response" (.str client_response), open1, full1, ms)
    | _ => .error ()
  else .ok (chunk, thinking_open, full_response_text, [])

/-- The terminal force-close of `generate_stream` (main.py lines 861-867):
when the unit is `done` and the thinking block is still open, append the
close tag to the thinking field if it is truthy, else prepend it to the
(possibly synthesized) response field. -/
def donePhase (thinking_open : Bool) (chunk : JObj) : JObj × Bool × Markers :=
  if jsonTruthy ((getKey chunk "done").getD (.bool false)) ∧ thinking_open then
    match getKey chunk "thinking" with
    | some (Json.str s) =>
      if s ≠ "" then (setKey chunk "thinking" (.str (s ++ THINK_TAG_END)), false, [false])
      else
        (setKey chunk "response"
          (.str (THINK_TAG_END ++
            (match getKey chunk "response" with
             | some (Json.str r) => r
             | _ => ""))), false, [false])
    | _ =>
      (setKey chunk "response"
        (.str (THINK_TAG_END ++
          (match getKey chunk "response" with
           | some (Json.str r) => r
           | _ => ""))), false, [false])
  else (chunk, thinking_open, [])

/-- Result of sanitizing one parsed stream unit. -/
structure StepOut where
  chunk : JObj
  thinking_open : Bool
  full_response_text : String
  markers : Markers

/-- One iteration of the `generate_stream` loop body on a parsed JSON
object: thinking block, then response block, then terminal force-close.
`Except.error` models an uncaught Python exception. -/
def stepChunk (thinking_open : Bool) (full_response_text : String)
    (chunk : JObj) : Except Unit StepOut :=
  match thinkingPhase thinking_open chunk with
  | .error e => .error e
  | .ok (c1, open1, m1) =>
    match responsePhase open1 full_response_text c1 with
    | .error e => .error e
    | .ok (c2, open2, full2, m2) =>
      let (c3, open3, m3) := donePhase open2 c2
      .ok ⟨c3, open3, full2, m1 ++ m2 ++ m3⟩

/-- A structured stream unit as emitted by the model backend: optional
`thinking` text, optional `response` text, and the `done` flag. -/
structure StreamUnit where
  thinking : Option String
  response : Option String
  done : Bool

/-- The JSON object a `StreamUnit` parses to. -/
def encodeUnit (u : StreamUnit) : JObj :=
  match u.thinking, u.response with
  | some t, some r => [("thinking", .str t), ("response", .str r), ("done", .bool u.done)]
  | some t, none => [("thinking", .str t), ("done", .bool u.done)]
  | none, some r => [("response", .str r), ("done", .bool u.done)]
  | none, none => [("done", .bool u.done)]

/-- Run the sanitizer over a sequence of structured stream units starting
from the given state, collecting all inserted markers in emission order. -/
def runUnits (thinking_open : Bool) (full_response_text : String) :
    List StreamUnit → Except Unit (Bool × String × Markers)
  | [] => .ok (thinking_open, full_response_text, [])
  | u :: rest =>
    match stepChunk thinking_open full_response_text (encodeUnit u) with
    | .error e => .error e
    | .ok out =>
      match runUnits out.thinking_open out.full_response_text rest with
      | .error e => .error e
      | .ok (tEnd, fEnd, ms) => .ok (tEnd, fEnd, out.markers ++ ms)

/-- One item yielded to the client by `generate_stream`. -/
inductive OutItem where
  | emit (s : String)
  | errorEmit

/-- The line loop of `generate_stream` (main.py lines 823-889): skip blank
lines, strip, parse as JSON.  A line that is not JSON is passed through
unmodified (the `JSONDecodeError` arm).  A JSON object is sanitized and
re-serialized.  JSON that is not an object raises (`TypeError` on scalar
membership tests, `AttributeError` on `.get`), which the outer
`except Exception` turns into a single error unit that ends the stream;
the same happens if sanitization itself raises. -/
def processLines (thinking_open : Bool) (full_response_text : String) :
    List String → List OutItem
  | [] => []
  | l :: rest =>
    if l = "" then processLines thinking_open full_response_text rest
    else
      let line := pyStrip l
      if line = "" then processLines thinking_open full_response_text rest
      else
        match jsonParse line with
        | none =>
          .emit (line ++ "\n") :: processLines thinking_open full_response_text rest
        | some (Json.obj members) =>
          match stepChunk thinking_open full_response_text members with
          | .ok out =>
            .emit (jsonDump (Json.obj out.chunk) ++ "\n") ::
              processLines out.thinking_open out.full_response_text rest
          | .error _ => [OutItem.errorEmit]
        | some _ => [OutItem.errorEmit]

/-- A marker sequence is a legal run from a state when each marker flips the
state: an open tag only from `Idle` (`false`), a close tag only from
`ThinkOpen` (`true`).  Returns the end state. -/
def marksRun : Bool → Markers → Option Bool
  | st, [] => some st
  | st, m :: ms => if m = !st then marksRun (!st) ms else none

/-- Shape of a well-formed validator result: valid results carry a tool
name and a JSON-object payload, and any invalid result is acceptable. -/
def validResultShape : Bool × Option String × Option Json → Bool
  | (true, some _, some (Json.obj _)) => true
  | (false, _, _) => true
  | _ => false

/-- Concatenate the chunks' non-overlapping parts: each chunk contributes
its first `size - overlap` characters, the final chunk contributes all of
itself. -/
def recombinePrefixes (size overlap : Nat) : List (List Char) → List Char
  | [] => []
  | [c] => c
  | c :: rest => c.take (size - overlap) ++ recombinePrefixes size overlap rest

theorem marksRun_append {a : Markers} :
    ∀ {s s1 : Bool} (b : Markers), marksRun s a = some s1 →
      marksRun s (a ++ b) = marksRun s1 b := by
  induction a with
  | nil => intro s s1 b h; cases h; rfl
  | cons m ms ih =>
    intro s s1 b h
    simp only [marksRun] at h
    by_cases hm : m = !s
    · simp only [hm, if_pos rfl] at h
      simpa [marksRun, hm] using ih b h
    · simp [hm] at h

theorem marksRun_count {ms : Markers} :
    ∀ {s s1 : Bool}, marksRun s ms = some s1 →
      ms.count true + (if s then 1 else 0) = ms.count false + (if s1 then 1 else 0) := by
  induction ms with
  | nil => intro s s1 h; cases h; rfl
  | cons m rest ih =>
    intro s s1 h
    simp only [marksRun] at h
    by_cases hm : m = !s
    · subst hm
      rw [if_pos rfl] at h
      have := ih h
      cases s <;> simp_all [List.count_cons]
      all_goals omega
    · simp [hm] at h

theorem marksRun_chain {ms : Markers} :
    ∀ {s s1 : Bool}, marksRun s ms = some s1 →
      List.Chain' (fun a b => a ≠ b) ms := by
  induction ms with
  | nil => intro s s1 _; exact List.chain'_nil
  | cons m rest ih =>
    intro s s1 h
    simp only [marksRun] at h
    by_cases hm : m = !s
    · subst hm
      rw [if_pos rfl] at h
      have hrest := ih h
      cases rest with
      | nil => simp
      | cons m2 rest2 =>
        refine List.chain'_cons.mpr ⟨?_, hrest⟩
        simp only [marksRun, Bool.not_not] at h
        by_cases hm2 : m2 = s
        · subst hm2; cases m2 <;> decide
        · simp [hm2] at h
    · simp [hm] at h

theorem chain_ne_not_adjacent {ms : Markers}
    (h : List.Chain' (fun a b => a ≠ b) ms) :
    ∀ a c : Markers, ms ≠ a ++ true :: true :: c := by
  intro a
  induction a generalizing ms with
  | nil =>
    intro c hEq
    subst hEq
    exact (List.chain'_cons.mp h).1 rfl
  | cons x a ih =>
    intro c hEq
    cases ms with
    | nil => simp at hEq
    | cons y ys =>
      simp only [List.cons_append, List.cons.injEq] at hEq
      exact ih (h.tail) c hEq.2

theorem chain_ne_no_double_open {ms : Markers}
    (h : List.Chain' (fun a b => a ≠ b) ms) :
    ∀ a b c : Markers, ms = a ++ true :: b ++ true :: c → false ∈ b := by
  intro a b c hEq
  cases b with
  | nil => exact absurd hEq (by simpa using chain_ne_not_adjacent h a c)
  | cons x xs =>
    cases x with
    | false => exact List.mem_cons_self false xs
    | true =>
      exfalso
      exact chain_ne_not_adjacent h a (xs ++ true :: c) (by simpa using hEq)

theorem think_start_append_ne (s : String) : THINK_TAG_START ++ s ≠ "" := by
  intro h
  have h2 : (THINK_TAG_START ++ s).data = ("" : String).data := by rw [h]
  simp [THINK_TAG_START, String.data_append] at h2

theorem stepChunk_encodeUnit (tOpen : Bool) (fr : String) (u : StreamUnit) :
    ∃ out : StepOut, stepChunk tOpen fr (encodeUnit u) = .ok out ∧
      marksRun tOpen out.markers = some out.thinking_open ∧
      (u.done = true → out.thinking_open = false) := by
  obtain ⟨th, resp, d⟩ := u
  cases th with
  | none =>
    cases resp with
    | none =>
      cases tOpen <;> cases d <;>
        simp [stepChunk, thinkingPhase, responsePhase, donePhase, encodeUnit,
          hasKey, getKey, setKey, popKey, jsonTruthy, marksRun, THINK_TAG_END]
    | some r =>
      by_cases h2 : sanitize_tool_lines r = "" <;> cases tOpen <;> cases d <;>
        simp [stepChunk, thinkingPhase, responsePhase, donePhase, encodeUnit,
          hasKey, getKey, setKey, popKey, jsonTruthy, marksRun, h2, THINK_TAG_END]
  | some t =>
    cases resp with
    | none =>
      by_cases h1 : sanitize_tool_lines t = "" <;> cases tOpen <;> cases d <;>
        simp [stepChunk, thinkingPhase, responsePhase, donePhase, encodeUnit,
          hasKey, getKey, setKey, popKey, jsonTruthy, marksRun, h1,
          think_start_append_ne, THINK_TAG_END]
    | some r =>
      by_cases h1 : sanitize_tool_lines t = "" <;>
        by_cases h2 : sanitize_tool_lines r = "" <;> cases tOpen <;> cases d <;>
        simp [stepChunk, thinkingPhase, responsePhase, donePhase, encodeUnit,
          hasKey, getKey, setKey, popKey, jsonTruthy, marksRun, h1, h2,
          think_start_append_ne, THINK_TAG_END]

theorem runUnits_spec (units : List StreamUnit) :
    ∀ (tOpen : Bool) (fr : String),
      ∃ tEnd fEnd ms, runUnits tOpen fr units = .ok (tEnd, fEnd, ms) ∧
        marksRun tOpen ms = some tEnd ∧
        ∀ ulast, units.getLast? = some ulast → ulast.done = true → tEnd = false := by
  induction units with
  | nil =>
    intro tOpen fr
    exact ⟨tOpen, fr, [], rfl, rfl, fun ulast h => by simp at h⟩
  | cons u rest ih =>
    intro tOpen fr
    obtain ⟨out, hstep, hmarks, hdone⟩ := stepChunk_encodeUnit tOpen fr u
    obtain ⟨tEnd, fEnd, ms, hrun, hms, hlast⟩ :=
      ih out.thinking_open out.full_response_text
    refine ⟨tEnd, fEnd, out.markers ++ ms, ?_, ?_, ?_⟩
    · simp [runUnits, hstep, hrun]
    · rw [marksRun_append ms hmarks]; exact hms
    · intro ulast h hd
      cases rest with
      | nil =>
        simp only [runUnits] at hrun
        have h1 : tEnd = out.thinking_open := by
          cases hrun; rfl
        have h2 : u = ulast := by
          simpa using h
        subst h1; subst h2
        exact hdone hd
      | cons v rs =>
        exact hlast ulast (by simpa using h) hd

/-- C1: starting from `Idle`, processing any structured stream-unit sequence
whose last unit has `done = true` succeeds, inserts as many `<think>` open
markers as `</think>` close markers, never inserts two open markers without
an intervening close marker, and ends back in `Idle`
(`thinking_open = false`).  Markers are the tags the sanitizer itself
inserts into the client stream, in emission order. -/
theorem stream_sanitizer_marker_pairing (units : List StreamUnit)
    (ulast : StreamUnit) (hlast : units.getLast? = some ulast)
    (hdone : ulast.done = true) :
    ∃ fEnd ms, runUnits false "" units = .ok (false, fEnd, ms) ∧
      ms.count true = ms.count false ∧
      (∀ a b c : Markers, ms = a ++ true :: b ++ true :: c → false ∈ b) := by
  obtain ⟨tEnd, fEnd, ms, hrun, hms, hlastP⟩ := runUnits_spec units false ""
  have htEnd : tEnd = false := hlastP ulast hlast hdone
  subst htEnd
  refine ⟨fEnd, ms, hrun, ?_, ?_⟩
  · simpa using marksRun_count hms
  · exact chain_ne_no_double_open (marksRun_chain hms)

/-- Witness for C1 at the spec's own scenario: two thinking units followed
by a terminal answer unit. -/
theorem stream_sanitizer_marker_pairing_w :
    ∃ fEnd ms,
      runUnits false ""
        [⟨some "step1", none, false⟩, ⟨some "step2", none, false⟩,
         ⟨none, some "answer", true⟩] = .ok (false, fEnd, ms) ∧
      ms.count true = ms.count false ∧
      (∀ a b c : Markers, ms = a ++ true :: b ++ true :: c → false ∈ b) :=
  stream_sanitizer_marker_pairing _ _ rfl rfl

theorem chunkLoopAux_spec (size overlap : Nat) (h : overlap < size) :
    ∀ (fuel : Nat) (t : List Char), t.length + 1 ≤ fuel →
      ∃ cs, chunkLoopAux fuel size overlap t = some cs ∧
        recombinePrefixes size overlap cs = t ∧
        (∀ c ∈ cs.dropLast, c.length = size) ∧
        (∀ c ∈ cs, c.length ≤ size) ∧
        (t ≠ [] → cs ≠ []) := by
  intro fuel
  induction fuel with
  | zero => intro t ht; omega
  | succ fuel ih =>
    intro t ht
    by_cases h0 : t.length = 0
    · have ht0 : t = [] := List.length_eq_zero.mp h0
      subst ht0
      exact ⟨[], by simp [chunkLoopAux], rfl, by simp, by simp, fun hc => absurd rfl hc⟩
    · by_cases hle : t.length ≤ size
      · refine ⟨[t.take size], by simp [chunkLoopAux, h0, hle], ?_, by simp, ?_, ?_⟩
        · simpa [recombinePrefixes] using List.take_of_length_le hle
        · intro c hc
          simp only [List.mem_singleton] at hc
          subst hc
          simp [List.length_take]
        · intro _; simp
      · push_neg at hle
        have ht2 : (t.drop (size - overlap)).length + 1 ≤ fuel := by
          simp only [List.length_drop]
          omega
        obtain ⟨cs2, hcs2, hrec2, hlen2, hle2, hne2⟩ := ih (t.drop (size - overlap)) ht2
        have hdropne : t.drop (size - overlap) ≠ [] := by
          intro hr
          have := congrArg List.length hr
          simp only [List.length_drop, List.length_nil] at this
          omega
        have hcne : cs2 ≠ [] := hne2 hdropne
        refine ⟨t.take size :: cs2, ?_, ?_, ?_, ?_, ?_⟩
        · simp only [chunkLoopAux, h0, if_false]
          rw [if_neg (by omega), hcs2]
          rfl
        · cases cs2 with
          | nil => exact absurd rfl hcne
          | cons c2 rest2 =>
            show (t.take size).take (size - overlap) ++
              recombinePrefixes size overlap (c2 :: rest2) = t
            rw [List.take_take, min_eq_left (by omega), hrec2]
            exact List.take_append_drop _ t
        · intro c hc
          cases cs2 with
          | nil => exact absurd rfl hcne
          | cons c2 rest2 =>
            rw [List.dropLast_cons₂] at hc
            rcases List.mem_cons.mp hc with hc1 | hc1
            · subst hc1
              simp only [List.length_take]
              omega
            · exact hlen2 c hc1
        · intro c hc
          rcases List.mem_cons.mp hc with hc1 | hc1
          · subst hc1
            simp only [List.length_take]
            omega
          · exact hle2 c hc1
        · intro _; simp

/-- C2: in character-unit mode, for every chunk size `s` and overlap
`o < s`, concatenating each chunk's first `s - o` characters (and the whole
final chunk) reconstructs the text exactly, every chunk but the last has
length exactly `s`, and every chunk (so in particular the final one) has
length at most `s`. -/
theorem chunker_reconstruction (size overlap : Nat) (t : List Char)
    (h : overlap < size) :
    recombinePrefixes size overlap (chunk_simple size overlap t) = t ∧
    (∀ c ∈ (chunk_simple size overlap t).dropLast, c.length = size) ∧
    (∀ c ∈ chunk_simple size overlap t, c.length ≤ size) := by
  obtain ⟨cs, hcs, hrec, hlen, hle, -⟩ :=
    chunkLoopAux_spec size overlap h (t.length + 1) t (le_refl _)
  unfold chunk_simple
  rw [hcs]
  exact ⟨hrec, hlen, hle⟩

/-- Witness for C2 at `s = 3`, `o = 1` on the text `abcdefg`. -/
theorem chunker_reconstruction_w :
    recombinePrefixes 3 1 (chunk_simple 3 1 ("abcdefg".data)) = "abcdefg".data ∧
    (∀ c ∈ (chunk_simple 3 1 ("abcdefg".data)).dropLast, c.length = 3) ∧
    (∀ c ∈ chunk_simple 3 1 ("abcdefg".data), c.length ≤ 3) :=
  chunker_reconstruction 3 1 ("abcdefg".data) (by decide)

theorem chunkLoopAux_isSome {α : Type} (size overlap : Nat) (h : overlap < size) :
    ∀ (fuel : Nat) (t : List α), t.length + 1 ≤ fuel →
      (chunkLoopAux fuel size overlap t).isSome := by
  intro fuel
  induction fuel with
  | zero => intro t ht; omega
  | succ fuel ih =>
    intro t ht
    by_cases h0 : t.length = 0
    · simp [chunkLoopAux, h0]
    · by_cases hle : t.length ≤ size
      · simp [chunkLoopAux, h0, hle]
      · push_neg at hle
        have ht2 : (t.drop (size - overlap)).length + 1 ≤ fuel := by
          simp only [List.length_drop]
          omega
        have := ih (t.drop (size - overlap)) ht2
        simp only [chunkLoopAux, h0, if_false]
        rw [if_neg (by omega)]
        simpa using this

/-- C9: for every size `s ≥ 1` and overlap `o < s` the slicing loop
terminates within `length + 1` iterations (the fuel never runs out), in
both the character-unit variant and the token-unit variant: the advance
`start := end - overlap` makes progress by `s - o ≥ 1` each iteration. -/
theorem chunker_terminates (size overlap : Nat) (t : List Char)
    (encode : String → List Nat) (text : String) (h : overlap < size) :
    (chunkLoopAux (t.length + 1) size overlap t).isSome ∧
    (chunkLoopAux ((encode text).length + 1) size overlap (encode text)).isSome :=
  ⟨chunkLoopAux_isSome size overlap h (t.length + 1) t (le_refl _),
   chunkLoopAux_isSome size overlap h ((encode text).length + 1) (encode text) (le_refl _)⟩

/-- Witness for C9 at `s = 2`, `o = 0` on a concrete text and token list. -/
theorem chunker_terminates_w :
    (chunkLoopAux (("abcde".data).length + 1) 2 0 ("abcde".data)).isSome ∧
    (chunkLoopAux (((fun _ => [10, 20, 30]) "x" : List Nat).length + 1) 2 0
      ((fun _ => [10, 20, 30]) "x")).isSome :=
  chunker_terminates 2 0 ("abcde".data) (fun _ => [10, 20, 30]) "x" (by decide)

/-- C3: against a backend answering every request with HTTP 404,
`get_embedding` makes exactly one network call, takes no delay, and
returns `None`; against one answering every request with HTTP 500 it makes
exactly two calls with one short fixed delay between them, then returns
`None`. -/
theorem embedding_retry_counts (V : Type) (text : String) :
    get_embedding (V := V) (fun _ _ => .httpError 404) text =
      ⟨none, 1, 0⟩ ∧
    get_embedding (V := V) (fun _ _ => .httpError 500) text =
      ⟨none, 2, 1⟩ := by
  exact ⟨rfl, rfl⟩

/-- C6 counterexample: a backend answering every request with HTTP 502 (a
5xx status) gets exactly one network call, not two — only status 500 is
retried by the code. -/
theorem embedding_5xx_cex :
    (get_embedding (V := Unit) (fun _ _ => .httpError 502) "t").calls = 1 ∧
    (get_embedding (V := Unit) (fun _ _ => .httpError 502) "t").calls ≠ 2 := by
  exact ⟨rfl, by decide⟩

/-- C6 amended: for a backend answering every request with a 5xx status,
`get_embedding` retries exactly once (two calls, one delay) when the status
is 500, and treats every other 5xx status as a permanent failure (one call,
no delay); in all cases it returns `None`. -/
theorem embedding_5xx_amended (V : Type) (text : String) (status : Nat)
    (h5 : 500 ≤ status) (h6 : status ≤ 599) :
    get_embedding (V := V) (fun _ _ => .httpError status) text =
      if status = 500 then ⟨none, 2, 1⟩ else ⟨none, 1, 0⟩ := by
  have h404 : ¬ status = 404 := by omega
  by_cases hs : status = 500
  · subst hs
    rfl
  · rw [if_neg hs]
    show get_embedding_go (fun _ _ => .httpError status) text (List.range maxRetries) 0 0 = _
    simp [get_embedding_go, maxRetries, List.range_succ, h404, hs]

/-- Witness for C6's amended claim at status 503. -/
theorem embedding_5xx_amended_w :
    get_embedding (V := Unit) (fun _ _ => .httpError 503) "t" =
      if 503 = 500 then ⟨none, 2, 1⟩ else ⟨none, 1, 0⟩ :=
  embedding_5xx_amended Unit "t" 503 (by omega) (by omega)

/-- C4: `validate_tool_call` is total and returns exactly one of a valid
result carrying the tool name and a JSON-object payload, or an invalid
result; totality (never raising) holds by construction of the embedding,
mirroring the catch-all `except` arms of the source. -/
theorem validate_tool_call_total (line : String) :
    (∃ name members, validate_tool_call line =
      (true, some name, some (Json.obj members))) ∨
    (validate_tool_call line).1 = false := by
  have h : validResultShape (validate_tool_call line) = true := by
    simp only [validate_tool_call]
    repeat' split
    all_goals rfl
  rcases hv : validate_tool_call line with ⟨b, name, payload⟩
  rw [hv] at h
  cases b with
  | false => right; rfl
  | true =>
    left
    rcases name with _ | n
    · simp [validResultShape] at h
    rcases payload with _ | v
    · simp [validResultShape] at h
    cases v with
    | obj ms => exact ⟨n, ms, rfl⟩
    | null => simp [validResultShape] at h
    | bool b2 => simp [validResultShape] at h
    | num m e => simp [validResultShape] at h
    | str s => simp [validResultShape] at h
    | arr xs => simp [validResultShape] at h

/-- C5: the three documented example lines — a fully valid
`schematic.place_component` call, the same call missing `x` and `y`, and a
call to an unsupported tool. -/
theorem validate_tool_call_examples :
    validate_tool_call
        ("TOOL schematic.place_component \x7b\"symbol\":\"R1\",\"x\":1,\"y\":2\x7d") =
      (true, some "schematic.place_component",
        some (Json.obj
          [("symbol", Json.str "R1"), ("x", Json.num 1 0), ("y", Json.num 2 0)])) ∧
    validate_tool_call ("TOOL schematic.place_component \x7b\"symbol\":\"R1\"\x7d") =
      (false, some "schematic.place_component",
        some (Json.obj [("symbol", Json.str "R1")])) ∧
    validate_tool_call ("TOOL unknown.tool \x7b\x7d") =
      (false, some "unknown.tool", none) := by
  exact ⟨rfl, rfl, rfl⟩

/-- C7: when retrieved context is empty and the memory context is empty
(memory excluded, session id absent or falsy, history retrieval raising,
or no messages), `augment_prompt` returns the original prompt unchanged. -/
theorem augment_prompt_noop (retrieveContext : String → Option String → String)
    (getConversation : String → Nat → Except Unit (List Msg))
    (prompt : String) (sessionId : Option String) (includeMemory : Bool)
    (hctx : retrieveContext prompt sessionId = "")
    (hmem : includeMemory = false ∨ sessionId = none ∨ sessionId = some "" ∨
      (∃ sid, sessionId = some sid ∧ getConversation sid 10 = .error ()) ∨
      (∃ sid, sessionId = some sid ∧ getConversation sid 10 = .ok [])) :
    augment_prompt retrieveContext getConversation prompt sessionId includeMemory =
      prompt := by
  have hm : memoryContextOf getConversation sessionId includeMemory = "" := by
    rcases hmem with h | h | h | ⟨sid, hsid, hc⟩ | ⟨sid, hsid, hc⟩
    · subst h
      cases sessionId with
      | none => rfl
      | some sid => simp [memoryContextOf]
    · subst h; rfl
    · subst h; simp [memoryContextOf]
    · subst hsid; simp [memoryContextOf, hc]
    · subst hsid; simp [memoryContextOf, hc]
  unfold augment_prompt
  rw [hctx, hm]
  simp

/-- Witness for C7: empty retrieval, empty history, memory included. -/
theorem augment_prompt_noop_w :
    augment_prompt (fun _ _ => "") (fun _ _ => .ok []) "hello" (some "sess") true =
      "hello" :=
  augment_prompt_noop (fun _ _ => "") (fun _ _ => .ok []) "hello" (some "sess") true
    rfl (.inr (.inr (.inr (.inr ⟨"sess", rfl, rfl⟩))))

/-- C8 counterexample: the line `[]` fails to parse as a structured JSON
record (it is a JSON array, not an object); the code does not pass it
through — it raises, the outer handler emits a single error unit, and the
following well-formed terminal unit is never processed or emitted. -/
theorem parse_error_abort_cex :
    jsonParse "[]" = some (Json.arr []) ∧
    processLines false "" ["[]", "\x7b\"response\": \"ok\", \"done\": true\x7d"] =
      [OutItem.errorEmit] := by
  exact ⟨rfl, rfl⟩

/-- C8 amended: a stream line that is not valid JSON at all is emitted
downstream unmodified (modulo the strip the code applies to every line) and
processing continues with the remaining lines in order; a line that parses
as JSON but not as an object instead aborts the stream with a single error
unit. -/
theorem parse_error_pass_through (tOpen : Bool) (fr l : String)
    (rest : List String) (h0 : l ≠ "") (h1 : pyStrip l ≠ "")
    (h2 : jsonParse (pyStrip l) = none) :
    processLines tOpen fr (l :: rest) =
      .emit (pyStrip l ++ "\n") :: processLines tOpen fr rest := by
  simp [processLines, h0, h1, h2]

/-- Witness for C8's amended claim on a non-JSON line followed by a
terminal unit. -/
theorem parse_error_pass_through_w :
    processLines false "" ["oops not json", "\x7b\"done\": true\x7d"] =
      .emit (pyStrip "oops not json" ++ "\n") ::
        processLines false "" ["\x7b\"done\": true\x7d"] :=
  parse_error_pass_through false "" "oops not json" ["\x7b\"done\": true\x7d"]
    (by decide) (by decide) (by rfl)

/-- C10: `plan_action` always returns a plan with `needs_context = true`
(no classifier branch clears it), so `execute_plan` always augments the
query through the retriever; the un-augmented branch is unreachable for
plans produced by `plan_action`. -/
theorem plan_always_needs_context (q : String) (augment : String → String) :
    (plan_action q).needs_context = true ∧
    execute_plan (plan_action q) q augment = augment q := by
  have hn : (plan_action q).needs_context = true := by
    simp only [plan_action]
    split
    · rfl
    · split <;> rfl
  refine ⟨hn, ?_⟩
  unfold execute_plan
  rw [hn]
  simp

end CopperAI
